import Mathlib

/-!
Verification of the qPCR analysis core (backend/analysis/normalize.py,
backend/qc/replicate.py, backend/stats/tests.py, backend/stats/posthoc.py)
against its natural-language specification.

Modelling conventions:
* CT values and p-values are rationals; a pandas missing value (NaN) is `none`
  of `Option ℚ`, and every comparison against a missing value is false, as in
  pandas/NumPy.
* A dataframe is a list of typed rows; row order is source order.  Column
  bookkeeping (required-column checks, extra merged columns that do not affect
  the claims) is absorbed by the typed row structures and noted per definition.
* Statistical routines from scipy/statsmodels that return floating-point
  p-values or statistics and are irrelevant to a claim are abstracted as
  explicit oracle parameters; routines whose arithmetic a claim depends on
  (the Bonferroni correction) are modelled concretely.
-/

attribute [local semireducible] Rat.sub Rat.add Rat.mul Rat.inv

deriving instance DecidableEq for Except

/-- Long-format row used by compute_delta_ct and compute_delta_delta_ct:
a (Sample Name, Target Name) pair with a possibly missing value column
(ct_mean, respectively delta_ct). -/
structure STRow where
  sample : String
  target : String
  value  : Option ℚ
deriving DecidableEq, Repr

/-- Output row of the normalization steps: the input row extended by the
derived column (delta_ct, respectively delta_delta_ct) and the tag column
(reference_gene, respectively control_condition) added at the end. -/
structure STOut where
  sample  : String
  target  : String
  value   : Option ℚ
  derived : Option ℚ
  tag     : String
deriving DecidableEq, Repr

/-- Cell of the pandas pivot_table with aggfunc first: the first present
value among the rows of the (sample, target) group, in dataframe order
(GroupBy.first skips missing values). -/
def pivotCell (df : List STRow) (s t : String) : Option ℚ :=
  ((df.filter (fun r => r.sample = s ∧ r.target = t)).filterMap (·.value)).head?

/-- Whether some row of the given sample carries a present value. -/
def sampleHasValue (df : List STRow) (s : String) : Bool :=
  df.any (fun r => r.sample = s && r.value.isSome)

/-- Whether some row of the given target carries a present value. -/
def targetHasValue (df : List STRow) (t : String) : Bool :=
  df.any (fun r => r.target = t && r.value.isSome)

/-- Index of the sample-by-target pivot: pivot_table with dropna=True drops
every group whose aggregate is missing and with it every index entry and
every column that is entirely missing, so a sample remains in the index iff
it has at least one present value.  (Sorted order is irrelevant here: the
pivot is only consumed through a merge on unique keys.) -/
def pivotSamples (df : List STRow) : List String :=
  ((df.filter (fun r => r.value.isSome)).map (·.sample)).dedup

/-- Columns of the sample-by-target pivot: the targets with at least one
present value (all-missing columns are dropped by pivot_table). -/
def pivotTargets (df : List STRow) : List String :=
  ((df.filter (fun r => r.value.isSome)).map (·.target)).dedup

/-- Elementwise pandas subtraction: missing if either operand is missing. -/
def osub : Option ℚ → Option ℚ → Option ℚ
  | some a, some b => some (a - b)
  | _, _ => none

/-- Column keys of the melted ΔCt table: the default target gene list (every
pivot column except the reference) followed by the reference gene, whose
ΔCt column is set to the constant 0. -/
def deltaMeltCols (df : List STRow) (ref : String) : List String :=
  ((pivotTargets df).filter (fun t => t ≠ ref)) ++ [ref]

/-- Value of the ΔCt pivot for target column t at sample s:
pivot[target] - pivot[reference], with the reference column overwritten by 0. -/
def deltaVal (df : List STRow) (ref t s : String) : Option ℚ :=
  if t = ref then some 0 else osub (pivotCell df s t) (pivotCell df s ref)

/-- The melted long-format ΔCt table: one (sample, target, ΔCt) entry per
pivot sample and per ΔCt column. -/
def meltedDeltaCt (df : List STRow) (ref : String) : List (String × String × Option ℚ) :=
  (deltaMeltCols df ref).flatMap (fun t =>
    (pivotSamples df).map (fun s => (s, t, deltaVal df ref t s)))

/-- Left merge of a dataframe row against the melted ΔCt table on
(Sample Name, Target Name); a row with no match keeps a missing ΔCt. -/
def lookupDeltaCt (df : List STRow) (ref s t : String) : Option ℚ :=
  ((meltedDeltaCt df ref).find? (fun e => e.1 = s && e.2.1 = t)).bind (fun e => e.2.2)

/-- compute_delta_ct (normalize.py) with the default target_genes=None and
default column names; the required-column check is absorbed by the typed rows.
Returns the input rows left-merged with the pivot/subtract/melt result and
extended by the reference_gene column.  Error messages are abbreviated but
keep the decision structure of the source (reference gene absent from the
target column, respectively present only with missing CT values so that its
pivot column is dropped). -/
def computeDeltaCt (df : List STRow) (ref : String) : Except String (List STOut) :=
  if ¬ df.any (fun r => r.target = ref) then
    .error ("Reference gene " ++ ref ++ " not found in data")
  else if ref ∉ pivotTargets df then
    .error ("Reference gene " ++ ref ++ " has no CT values")
  else
    .ok (df.map (fun r =>
      { sample := r.sample, target := r.target, value := r.value,
        derived := lookupDeltaCt df ref r.sample r.target, tag := ref }))

/-- Column keys of the melted ΔΔCt table: the default experimental condition
list (every pivot sample column except the control) followed by the control
condition, whose ΔΔCt column is set to the constant 0. -/
def ddMeltCols (df : List STRow) (ctrl : String) : List String :=
  ((pivotSamples df).filter (fun s => s ≠ ctrl)) ++ [ctrl]

/-- Value of the ΔΔCt pivot for sample column s at target t:
pivot[condition] - pivot[control], with the control column overwritten by 0. -/
def ddVal (df : List STRow) (ctrl s t : String) : Option ℚ :=
  if s = ctrl then some 0 else osub (pivotCell df s t) (pivotCell df ctrl t)

/-- The melted long-format ΔΔCt table: one (sample, target, ΔΔCt) entry per
ΔΔCt sample column and per pivot target. -/
def meltedDeltaDeltaCt (df : List STRow) (ctrl : String) : List (String × String × Option ℚ) :=
  (ddMeltCols df ctrl).flatMap (fun s =>
    (pivotTargets df).map (fun t => (s, t, ddVal df ctrl s t)))

/-- Left merge of a dataframe row against the melted ΔΔCt table. -/
def lookupDeltaDeltaCt (df : List STRow) (ctrl s t : String) : Option ℚ :=
  ((meltedDeltaDeltaCt df ctrl).find? (fun e => e.1 = s && e.2.1 = t)).bind (fun e => e.2.2)

/-- compute_delta_delta_ct (normalize.py) with the default
experimental_conditions=None and default column names.  The source checks
only that the control condition occurs in the sample column; when every one
of its delta_ct values is missing, its pivot column is dropped and the
subsequent pivot_df[control_condition] access escapes as a KeyError rather
than a named validation error. -/
def computeDeltaDeltaCt (df : List STRow) (ctrl : String) : Except String (List STOut) :=
  if ¬ df.any (fun r => r.sample = ctrl) then
    .error ("Control condition " ++ ctrl ++ " not found")
  else if ctrl ∉ pivotSamples df then
    .error ("KeyError: " ++ ctrl)
  else
    .ok (df.map (fun r =>
      { sample := r.sample, target := r.target, value := r.value,
        derived := lookupDeltaDeltaCt df ctrl r.sample r.target, tag := ctrl }))

/-- Well-level row consumed by filter_replicates (qc/replicate.py): a
(Sample Name, Target Name) key with a possibly missing CT value.  The Well
Position and other passthrough columns do not influence the partition and
are absorbed by row identity. -/
structure WellRow where
  sample : String
  target : String
  ct : Option ℚ
deriving DecidableEq, Repr

/-- The present CT values of the replicate group of (s, t), in dataframe
order (pandas std, count and notna().sum() all skip missing values). -/
def groupValid (df : List WellRow) (s t : String) : List ℚ :=
  (df.filter (fun r => r.sample = s ∧ r.target = t)).filterMap (·.ct)

/-- Sample variance with ddof = 1, the square of the pandas std.  Only
meaningful for 2 ≤ vs.length; the guards below never evaluate it otherwise. -/
def sampleVariance (vs : List ℚ) : ℚ :=
  let n : ℚ := vs.length
  let m : ℚ := vs.sum / n
  ((vs.map (fun x => (x - m) ^ 2)).sum) / (n - 1)

/-- The sd half of the filter_replicates pass criterion, `stats.sd <=
sd_cutoff`.  pandas std with fewer than 2 present values is missing and a
missing value compares false, so the group must have at least 2 present
values.  The comparison of the nonnegative real sd against the cutoff is
represented exactly by comparing the variance against the squared cutoff
(together with 0 ≤ sd_cutoff); the float round(4) applied by the source to
the displayed statistics is not modelled. -/
def sdConditionHolds (vs : List ℚ) (sdCutoff : ℚ) : Bool :=
  decide (2 ≤ vs.length) && decide (0 ≤ sdCutoff)
    && decide (sampleVariance vs ≤ sdCutoff ^ 2)

/-- The proportion half of the pass criterion, `stats.valid_proportion >=
min_proportion`.  The source computes total_count with pandas count, which
skips missing values, so total_count = valid_count: the stored proportion is
valid_count / valid_count, i.e. 1 whenever the group has any present value
and missing (0/0, comparing false) otherwise. -/
def proportionConditionHolds (vs : List ℚ) (minProportion : ℚ) : Bool :=
  decide (0 < vs.length) && decide (minProportion ≤ 1)

/-- Whether the replicate group of a row belongs to valid_groups in
filter_replicates. -/
def groupPasses (df : List WellRow) (sdCutoff minProportion : ℚ) (s t : String) : Bool :=
  sdConditionHolds (groupValid df s t) sdCutoff
    && proportionConditionHolds (groupValid df s t) minProportion

/-- filter_replicates (qc/replicate.py): splits the input rows by membership
of their (Sample Name, Target Name) group in valid_groups.  The merged
sd/count/proportion columns and the qc_fail_reason annotation attached to
the returned copies do not affect row identity or membership and are not
modelled. -/
def filterReplicates (df : List WellRow) (sdCutoff minProportion : ℚ) :
    List WellRow × List WellRow :=
  (df.filter (fun r => groupPasses df sdCutoff minProportion r.sample r.target),
   df.filter (fun r => ! groupPasses df sdCutoff minProportion r.sample r.target))

/-- Second definition following the spec wording, for comparison with the
code: valid_proportion = valid_count / total_count where total_count counts
every well of the group, present or missing. -/
def specValidProportion (df : List WellRow) (s t : String) : ℚ :=
  let rows := df.filter (fun r => r.sample = s ∧ r.target = t)
  ((rows.filterMap (·.ct)).length : ℚ) / (rows.length : ℚ)

/-- _auto_select_test (stats/tests.py).  The scipy normality check
(shapiro for n ≤ 5000, normaltest otherwise, kept when p_norm > 0.05) is a
floating-point computation abstracted as the oracle `normalTest`; groups
with fewer than 3 observations bypass the oracle and count as non-normal. -/
def autoSelectTest (groupData : List (List ℚ)) (paired : Bool)
    (normalTest : List ℚ → Bool) : String :=
  let normalityResults := groupData.map (fun d =>
    if 3 ≤ d.length then normalTest d else false)
  let allNormal := if normalityResults.isEmpty then false
    else normalityResults.all (fun b => b)
  if groupData.length = 2 then
    if allNormal then "ttest" else "mwu"
  else
    if paired then "friedman"
    else if allNormal then "anova"
    else "kruskal"

/-- The test_name reported by _run_ttest: the paired flag decides between the
paired and the independent t-test; for the independent branch the
equal-variance annotation comes from the Levene float oracle. -/
def ttestName (paired equalVar : Bool) : String :=
  if paired then "Paired t-test"
  else if equalVar then "Independent t-test (equal variance)"
  else "Independent t-test (unequal variance)"

/-- Row of the two-column frame df[[group_col, values_col]] handled inside
run_stat_tests; the group label is a non-null string and the value may be
missing. -/
structure GVRow where
  g : String
  v : Option ℚ
deriving DecidableEq, Repr

/-- dropna on the two selected columns. -/
def cleanRows (df : List GVRow) : List GVRow :=
  df.filter (fun r => r.v.isSome)

/-- Row count of the pivot built by _run_friedman.  The source calls
pivot_table(values=values_col, columns=group_col, aggfunc=first) with no
index argument: pandas then aggregates each column over all rows and
transposes, so the pivot is the single row labelled by the values-column
name (for an empty input the transposed frame is likewise one row with no
columns).  Every column of that row holds the first value of a group of the
already-dropna-ed frame, hence is present, so the subsequent dropna keeps
the row. -/
def pivotNoIndexRowCount (_clean : List GVRow) : Nat := 1

/-- Result envelope of _run_friedman (test_name, p_value and the qualitative
interpretation are omitted; the statistic is abstracted). -/
structure FriedmanResult where
  n_blocks : Nat
  n_treatments : Nat
  statistic : ℚ
  kendalls_w : ℚ
deriving DecidableEq, Repr

/-- _run_friedman (stats/tests.py).  The scipy friedmanchisquare statistic is
abstracted as the oracle `stat`; Kendall W = statistic / (n * (k - 1)) with
n the number of pivot rows and k the number of pivot columns. -/
def runFriedman (stat : List GVRow → ℚ) (clean : List GVRow) :
    Except String FriedmanResult :=
  let n := pivotNoIndexRowCount clean
  if n < 2 then .error "Friedman test requires at least 2 blocks (subjects)"
  else
    let k := (clean.map (·.g)).dedup.length
    let s := stat clean
    .ok { n_blocks := n, n_treatments := k, statistic := s,
          kendalls_w := s / ((n : ℚ) * ((k : ℚ) - 1)) }

/-- The friedman branch of run_stat_tests: requires paired, then hands the
cleaned frame to _run_friedman. -/
def runStatTestsFriedman (stat : List GVRow → ℚ) (df : List GVRow)
    (paired : Bool) : Except String FriedmanResult :=
  if ¬ paired then .error "Friedman test requires paired data"
  else runFriedman stat (cleanRows df)

/-- Caller-visible dataframe for the frame-effect claim: named columns with
their cell contents rendered as strings (the interaction key is built from
astype(str) values, so strings suffice). -/
structure Frame where
  cols : List (String × List String)
deriving DecidableEq, Repr

/-- Column lookup by name; missing columns read as empty. -/
def getCol (f : Frame) (name : String) : List String :=
  (((f.cols.find? (fun c => c.1 = name)).map (fun c => c.2)).getD [])

/-- Number of rows of the frame. -/
def frameRows (f : Frame) : Nat :=
  ((f.cols.head?.map (fun c => c.2.length)).getD 0)

/-- Column assignment df[name] = vals: overwrites the column in place when it
exists and appends it otherwise. -/
def setCol (f : Frame) (name : String) (vals : List String) : Frame :=
  if f.cols.any (fun c => c.1 = name) then
    ⟨f.cols.map (fun c => if c.1 = name then (name, vals) else c)⟩
  else ⟨f.cols ++ [(name, vals)]⟩

/-- The rowwise interaction key df[groups].apply(join with underscore,
axis=1). -/
def interactionColumn (f : Frame) (gs : List String) : List String :=
  (List.range (frameRows f)).map (fun i =>
    String.intercalate "_" (gs.map (fun g => ((getCol f g).get? i).getD "")))

/-- The caller-visible state of df after the group-handling prologue of
run_stat_tests (lines 44-49): with a list of group columns the source
executes df[group] = interaction key on the caller frame itself before
continuing on a separate cleaned copy; with a single column name the caller
frame is untouched. -/
def runStatTestsCallerFrame (df : Frame) (groups : Sum String (List String)) : Frame :=
  match groups with
  | .inl _ => df
  | .inr gs => setCol df "_group" (interactionColumn df gs)

/-- The three p-value adjustment methods accepted by adjust_pvalues
(stats/posthoc.py). -/
inductive PAdjustMethod
  | fdr_bh
  | holm
  | bonferroni
deriving DecidableEq, Repr

/-- Stable insertion of an element into a list sorted ascending by key. -/
def insertSortedBy (key : (Nat × ℚ) → ℚ) (x : Nat × ℚ) :
    List (Nat × ℚ) → List (Nat × ℚ)
  | [] => [x]
  | y :: ys => if key x ≤ key y then x :: y :: ys else y :: insertSortedBy key x ys

/-- Sort ascending by key.  Models np.argsort on the p-values together with
np.take: each element keeps its original position in the first component.
(np.argsort breaks ties arbitrarily, but for both step-down corrections the
accumulated output is invariant under tie order, so a stable sort is an
equivalent model.) -/
def sortByKey (key : (Nat × ℚ) → ℚ) : List (Nat × ℚ) → List (Nat × ℚ)
  | [] => []
  | x :: xs => insertSortedBy key x (sortByKey key xs)

/-- np.maximum.accumulate over the second components. -/
def maxAccumFrom : ℚ → List (Nat × ℚ) → List (Nat × ℚ)
  | _, [] => []
  | m, (i, v) :: rest => (i, max m v) :: maxAccumFrom (max m v) rest

/-- np.minimum.accumulate over the second components. -/
def minAccumFrom : ℚ → List (Nat × ℚ) → List (Nat × ℚ)
  | _, [] => []
  | m, (i, v) :: rest => (i, min m v) :: minAccumFrom (min m v) rest

/-- Undo the argsort: entry j of the output is the corrected value whose
original position is j. -/
def unsortByIdx (n : Nat) (l : List (Nat × ℚ)) : List ℚ :=
  (List.range n).map (fun j => (((l.find? (fun e => e.1 = j)).map (fun e => e.2)).getD 0))

/-- statsmodels multipletests(method=holm) on a NaN-free array: sort
ascending, multiply the i-th sorted p-value by (n - i), take the running
maximum, clip at 1, restore the original order. -/
def holmCorrect (ps : List ℚ) : List ℚ :=
  let n := ps.length
  let sorted := sortByKey (fun e => e.2) ps.enum
  let raw := sorted.enum.map (fun e => (e.2.1, e.2.2 * ((n : ℚ) - (e.1 : ℚ))))
  let acc := match raw with
    | [] => []
    | (i, v) :: rest => (i, v) :: maxAccumFrom v rest
  unsortByIdx n (acc.map (fun e => (e.1, min e.2 1)))

/-- statsmodels multipletests(method=fdr_bh) on a NaN-free array: sort
ascending, divide the i-th sorted p-value by the ecdf factor (i + 1) / n,
take the running minimum from the largest p-value downwards, clip at 1,
restore the original order. -/
def bhCorrect (ps : List ℚ) : List ℚ :=
  let n := ps.length
  let sorted := sortByKey (fun e => e.2) ps.enum
  let raw := sorted.enum.map (fun e => (e.2.1, e.2.2 * (n : ℚ) / ((e.1 : ℚ) + 1)))
  let acc := match raw.reverse with
    | [] => []
    | (i, v) :: rest => ((i, v) :: minAccumFrom v rest).reverse
  unsortByIdx n (acc.map (fun e => (e.1, min e.2 1)))

/-- statsmodels multipletests(method=bonferroni) on a NaN-free array:
multiply every p-value by the array length and clip at 1. -/
def bonferroniCorrect (ps : List ℚ) : List ℚ :=
  ps.map (fun p => min (p * (ps.length : ℚ)) 1)

/-- The correction applied by multitest.multipletests to the compacted
(NaN-free) p-value array. -/
def correctionOn (m : PAdjustMethod) (ps : List ℚ) : List ℚ :=
  match m with
  | .fdr_bh => bhCorrect ps
  | .holm => holmCorrect ps
  | .bonferroni => bonferroniCorrect ps

/-- adjusted[~nan_mask] = corrected: write the corrected values back into the
present positions of the original array, leaving missing positions missing.
When the corrected list is exhausted early (impossible for a
length-preserving correction) the remaining present values pass through. -/
def scatterAdjusted : List (Option ℚ) → List ℚ → List (Option ℚ)
  | [], _ => []
  | none :: rest, cs => none :: scatterAdjusted rest cs
  | some p :: rest, [] => some p :: scatterAdjusted rest []
  | some _ :: rest, c :: cs => some c :: scatterAdjusted rest cs

/-- adjust_pvalues (stats/posthoc.py): empty input returns the empty array,
an all-missing input is returned as is, and otherwise the missing entries
are preserved while the present entries are corrected as a compacted
array. -/
def adjustPvalues (m : PAdjustMethod) (ps : List (Option ℚ)) : List (Option ℚ) :=
  if ps.isEmpty then []
  else if ps.all (fun p => p.isNone) then ps
  else scatterAdjusted ps (correctionOn m (ps.filterMap id))

/-- The four pairwise test families of run_pairwise_tests, plus the closed
result tag used here in place of the per-pair result frames, whose numeric
content (scipy/statsmodels floats) is irrelevant to the dispatch claim. -/
inductive PairwiseKind
  | tukey
  | dunn
  | pairwise_t
  | pairwise_mwu
deriving DecidableEq, Repr

/-- Dispatch structure of run_pairwise_tests (stats/posthoc.py): dropna on
the two selected columns, require at least 2 distinct groups, then choose
the test family.  The branch order of the source is kept: the Tukey branch
additionally requires parametric, and the Dunn branch catches every
non-parametric call regardless of the requested test_type. -/
def runPairwiseTests (df : List GVRow) (testType : String) (parametric : Bool) :
    Except String PairwiseKind :=
  let clean := cleanRows df
  let groups := (clean.map (fun r => r.g)).dedup
  if groups.length < 2 then .error "Need at least 2 groups for pairwise comparisons"
  else if testType = "tukey" ∧ parametric then .ok .tukey
  else if testType = "dunn" ∨ ¬ parametric then .ok .dunn
  else if testType = "pairwise_t" then .ok .pairwise_t
  else if testType = "pairwise_mwu" then .ok .pairwise_mwu
  else .error ("Unknown test type: " ++ testType)

/-- The spec scenario for ΔCt: GAPDH mean CT 18 and MYC mean CT 22 in
SampleA. -/
def dfDeltaScenario : List STRow :=
  [⟨"SampleA", "GAPDH", some 18⟩, ⟨"SampleA", "MYC", some 22⟩]

/-- A table containing the reference gene, but only with a missing CT. -/
def dfDeltaRefAllMissing : List STRow := [⟨"SampleA", "GAPDH", none⟩]

/-- A table whose SampleB has no present CT value at all, so the pivot drops
it from the index. -/
def dfDeltaDroppedSample : List STRow :=
  [⟨"SampleA", "GAPDH", some 18⟩, ⟨"SampleB", "GAPDH", none⟩]

/-- A ΔCt table containing the control condition, but only with a missing
ΔCt. -/
def dfDdctControlAllMissing : List STRow := [⟨"Control", "MYC", none⟩]

/-- A ΔCt table whose target MYC has no present ΔCt value, so the pivot
drops it from the index, while the control condition keeps a present value
on another target. -/
def dfDdctDroppedTarget : List STRow :=
  [⟨"Control", "MYC", none⟩, ⟨"Control", "ACTB", some 1⟩]

/-- The spec scenario for ΔΔCt: ΔCt(MYC, Control) = 4, ΔCt(MYC, Treated) = 2. -/
def dfDdctScenario : List STRow :=
  [⟨"Control", "MYC", some 4⟩, ⟨"Treated", "MYC", some 2⟩]

/-- The spec QC scenario: CT values [20.0, 20.2, 20.1] for (SampleA, GeneX). -/
def dfQcScenario : List WellRow :=
  [⟨"SampleA", "GeneX", some 20⟩, ⟨"SampleA", "GeneX", some (101/5)⟩,
   ⟨"SampleA", "GeneX", some (201/10)⟩]

/-- A replicate group with 2 present values out of 4 wells: the true valid
proportion is 1/2 while the proportion computed by the source is 2/2 = 1. -/
def dfQcHalfMissing : List WellRow :=
  [⟨"SampleA", "GeneX", some 20⟩, ⟨"SampleA", "GeneX", some 20⟩,
   ⟨"SampleA", "GeneX", none⟩, ⟨"SampleA", "GeneX", none⟩]

/-- A replicate group with a single present value: its sd is undefined. -/
def dfQcSingle : List WellRow := [⟨"SampleA", "GeneX", some 20⟩]

/-- A complete paired design: two subjects measured under the three
conditions A, B, C (the subject labels cannot even be passed to
run_stat_tests, which keeps only the group and value columns). -/
def dfFriedmanComplete : List GVRow :=
  [⟨"A", some 1⟩, ⟨"B", some 2⟩, ⟨"C", some 3⟩,
   ⟨"A", some 2⟩, ⟨"B", some 3⟩, ⟨"C", some 4⟩]

/-- A caller dataframe with two grouping columns and a value column. -/
def frameTwoGroupCols : Frame :=
  ⟨[("condition", ["ctl", "trt"]), ("batch", ["b1", "b2"]),
    ("value", ["1.5", "2.5"])]⟩

/-- find? over one pivot row of the melted grid. -/
theorem find?_grid_row {α β γ : Type} [DecidableEq α] [DecidableEq β]
    (inner : List β) (a : α) (mk : α → β → γ) (p : γ → Bool) (a0 : α) (b0 : β)
    (hp : ∀ x y, p (mk x y) = true ↔ (x = a0 ∧ y = b0)) :
    ((inner.map (fun b => mk a b)).find? p)
      = if a = a0 ∧ b0 ∈ inner then some (mk a b0) else none := by
  induction inner with
  | nil => simp
  | cons b bs ih =>
    rw [List.map_cons, List.find?_cons]
    by_cases hpb : p (mk a b) = true
    · obtain ⟨ha, hb⟩ := (hp a b).mp hpb
      subst ha; subst hb
      simp [hpb]
    · have hfalse : p (mk a b) = false := by
        exact Bool.not_eq_true _ ▸ eq_false_of_ne_true hpb
      rw [hfalse]
      simp only []
      rw [ih]
      by_cases ha : a = a0
      · by_cases hbb : b0 = b
        · exact absurd ((hp a b).mpr ⟨ha, hbb.symm⟩) hpb
        · have : (b0 ∈ b :: bs) ↔ (b0 ∈ bs) := by
            simp [List.mem_cons, hbb]
          simp [ha, this]
      · simp [ha]

/-- find? over the whole melted grid: the first (and value-unique) entry with
the requested key, when its key components occur in the generating lists. -/
theorem find?_grid {α β γ : Type} [DecidableEq α] [DecidableEq β]
    (outer : List α) (inner : List β) (mk : α → β → γ) (p : γ → Bool)
    (a0 : α) (b0 : β)
    (hp : ∀ x y, p (mk x y) = true ↔ (x = a0 ∧ y = b0)) :
    ((outer.flatMap (fun a => inner.map (fun b => mk a b))).find? p)
      = if a0 ∈ outer ∧ b0 ∈ inner then some (mk a0 b0) else none := by
  induction outer with
  | nil => simp
  | cons a as ih =>
    rw [List.flatMap_cons, List.find?_append, find?_grid_row inner a mk p a0 b0 hp, ih]
    by_cases ha : a = a0
    · subst ha
      by_cases hb : b0 ∈ inner
      · simp [hb]
      · simp [hb]
    · have : (a0 ∈ a :: as) ↔ (a0 ∈ as) := by
        simp [List.mem_cons]
        intro h; exact absurd h.symm ha
      simp [ha, this]

/-- A sample is in the pivot index iff it has a present value. -/
theorem mem_pivotSamples_iff (df : List STRow) (s : String) :
    s ∈ pivotSamples df ↔ sampleHasValue df s = true := by
  simp only [pivotSamples, sampleHasValue, List.mem_dedup, List.mem_map,
    List.mem_filter, List.any_eq_true, Bool.and_eq_true, decide_eq_true_eq]
  constructor
  · rintro ⟨r, ⟨hr, hv⟩, rfl⟩
    exact ⟨r, hr, rfl, hv⟩
  · rintro ⟨r, hr, rfl, hv⟩
    exact ⟨r, ⟨hr, hv⟩, rfl⟩

/-- A target is a pivot column iff it has a present value. -/
theorem mem_pivotTargets_iff (df : List STRow) (t : String) :
    t ∈ pivotTargets df ↔ targetHasValue df t = true := by
  simp only [pivotTargets, targetHasValue, List.mem_dedup, List.mem_map,
    List.mem_filter, List.any_eq_true, Bool.and_eq_true, decide_eq_true_eq]
  constructor
  · rintro ⟨r, ⟨hr, hv⟩, rfl⟩
    exact ⟨r, hr, rfl, hv⟩
  · rintro ⟨r, hr, rfl, hv⟩
    exact ⟨r, ⟨hr, hv⟩, rfl⟩

/-- A target without any present value has an empty pivot cell everywhere. -/
theorem pivotCell_eq_none_of_target (df : List STRow) (s t : String)
    (h : targetHasValue df t = false) : pivotCell df s t = none := by
  unfold pivotCell
  have : (df.filter (fun r => decide (r.sample = s ∧ r.target = t))).filterMap (·.value) = [] := by
    rw [List.filterMap_eq_nil_iff]
    intro r hr
    rw [List.mem_filter] at hr
    obtain ⟨hmem, hcond⟩ := hr
    obtain ⟨-, ht⟩ := of_decide_eq_true hcond
    by_contra hv
    have hsome : r.value.isSome := by
      cases hval : r.value with
      | none => exact absurd hval hv
      | some q => simp
    have : targetHasValue df t = true := by
      unfold targetHasValue
      rw [List.any_eq_true]
      exact ⟨r, hmem, by simp [ht, hsome]⟩
    simp [this] at h
  rw [this]
  rfl

/-- A sample without any present value has an empty pivot cell everywhere. -/
theorem pivotCell_eq_none_of_sample (df : List STRow) (s t : String)
    (h : sampleHasValue df s = false) : pivotCell df s t = none := by
  unfold pivotCell
  have : (df.filter (fun r => decide (r.sample = s ∧ r.target = t))).filterMap (·.value) = [] := by
    rw [List.filterMap_eq_nil_iff]
    intro r hr
    rw [List.mem_filter] at hr
    obtain ⟨hmem, hcond⟩ := hr
    obtain ⟨hs, -⟩ := of_decide_eq_true hcond
    by_contra hv
    have hsome : r.value.isSome := by
      cases hval : r.value with
      | none => exact absurd hval hv
      | some q => simp
    have : sampleHasValue df s = true := by
      unfold sampleHasValue
      rw [List.any_eq_true]
      exact ⟨r, hmem, by simp [hs, hsome]⟩
    simp [this] at h
  rw [this]
  rfl

/-- Pointwise value of the ΔCt merge: whenever the reference gene has a
present CT value, a row of a sample with some present value receives
pivot(target) - pivot(reference) (0 for the reference row), and a row of a
sample dropped from the pivot index receives a missing ΔCt. -/
theorem lookupDeltaCt_eq (df : List STRow) (ref s t : String)
    (href : targetHasValue df ref = true) :
    lookupDeltaCt df ref s t
      = if sampleHasValue df s = true then
          (if t = ref then some 0
           else osub (pivotCell df s t) (pivotCell df s ref))
        else none := by
  unfold lookupDeltaCt meltedDeltaCt
  rw [find?_grid (deltaMeltCols df ref) (pivotSamples df)
    (fun t' s' => (s', t', deltaVal df ref t' s'))
    (fun e => e.1 = s && e.2.1 = t) t s
    (by intro x y; simp [Bool.and_eq_true, decide_eq_true_eq, and_comm])]
  by_cases hs : sampleHasValue df s = true
  · have hmem : s ∈ pivotSamples df := (mem_pivotSamples_iff df s).mpr hs
    by_cases ht : t = ref
    · subst ht
      have htm : t ∈ deltaMeltCols df t := by
        unfold deltaMeltCols
        exact List.mem_append_right _ (List.mem_singleton.mpr rfl)
      simp [htm, hmem, hs, deltaVal]
    · by_cases htv : targetHasValue df t = true
      · have htm : t ∈ deltaMeltCols df ref := by
          unfold deltaMeltCols
          exact List.mem_append_left _
            (List.mem_filter.mpr ⟨(mem_pivotTargets_iff df t).mpr htv, by simp [ht]⟩)
        simp [htm, hmem, hs, deltaVal, ht]
      · have htm : t ∉ deltaMeltCols df ref := by
          unfold deltaMeltCols
          rw [List.mem_append]
          rintro (hin | hin)
          · exact htv ((mem_pivotTargets_iff df t).mp (List.mem_filter.mp hin).1)
          · exact ht (List.mem_singleton.mp hin)
        have hcell : pivotCell df s t = none :=
          pivotCell_eq_none_of_target df s t (by simp [Bool.not_eq_true] at htv; exact htv)
        simp [htm, hs, ht, hcell, osub]
  · have hmem : s ∉ pivotSamples df := fun hin => hs ((mem_pivotSamples_iff df s).mp hin)
    simp [hmem, hs]

/-- Pointwise value of the ΔΔCt merge: whenever the control condition has a
present ΔCt value, a row of a target with some present value receives
ΔCt(sample) - ΔCt(control) (0 for the control row), and a row of a target
dropped from the pivot index receives a missing ΔΔCt. -/
theorem lookupDeltaDeltaCt_eq (df : List STRow) (ctrl s t : String)
    (hctrl : sampleHasValue df ctrl = true) :
    lookupDeltaDeltaCt df ctrl s t
      = if targetHasValue df t = true then
          (if s = ctrl then some 0
           else osub (pivotCell df s t) (pivotCell df ctrl t))
        else none := by
  unfold lookupDeltaDeltaCt meltedDeltaDeltaCt
  rw [find?_grid (ddMeltCols df ctrl) (pivotTargets df)
    (fun s' t' => (s', t', ddVal df ctrl s' t'))
    (fun e => e.1 = s && e.2.1 = t) s t
    (by intro x y; simp [Bool.and_eq_true, decide_eq_true_eq])]
  by_cases htv : targetHasValue df t = true
  · have htm : t ∈ pivotTargets df := (mem_pivotTargets_iff df t).mpr htv
    by_cases hsc : s = ctrl
    · subst hsc
      have hsm : s ∈ ddMeltCols df s := by
        unfold ddMeltCols
        exact List.mem_append_right _ (List.mem_singleton.mpr rfl)
      simp [hsm, htm, htv, ddVal]
    · by_cases hsv : sampleHasValue df s = true
      · have hsm : s ∈ ddMeltCols df ctrl := by
          unfold ddMeltCols
          exact List.mem_append_left _
            (List.mem_filter.mpr ⟨(mem_pivotSamples_iff df s).mpr hsv, by simp [hsc]⟩)
        simp [hsm, htm, htv, ddVal, hsc]
      · have hsm : s ∉ ddMeltCols df ctrl := by
          unfold ddMeltCols
          rw [List.mem_append]
          rintro (hin | hin)
          · exact hsv ((mem_pivotSamples_iff df s).mp (List.mem_filter.mp hin).1)
          · exact hsc (List.mem_singleton.mp hin)
        have hcell : pivotCell df s t = none :=
          pivotCell_eq_none_of_sample df s t (by simp [Bool.not_eq_true] at hsv; exact hsv)
        simp [hsm, htv, hsc, hcell, osub]
  · have htm : t ∉ pivotTargets df := fun hin => htv ((mem_pivotTargets_iff df t).mp hin)
    simp [htm, htv]

/-- C1 (amended): for every input table in which the reference gene appears
with at least one present CT value, compute_delta_ct returns one output row
per input row, where a row whose sample has at least one present CT value
receives delta_ct = pivoted first CT of its target minus pivoted first CT of
the reference gene in that sample (missing if either side is missing) and
exactly 0 when its target is the reference gene, while a row of a sample
with no present CT value at all is dropped from the pivot index and receives
a missing delta_ct; when the reference gene is absent from the target column
the function raises a validation error naming it, and when it is present
only with missing CT values it raises the has-no-CT-values error instead of
returning. -/
theorem computeDeltaCt_characterization (df : List STRow) (ref : String) :
    (df.any (fun r => r.target = ref) = false →
      computeDeltaCt df ref = .error ("Reference gene " ++ ref ++ " not found in data")) ∧
    (df.any (fun r => r.target = ref) = true → targetHasValue df ref = false →
      computeDeltaCt df ref = .error ("Reference gene " ++ ref ++ " has no CT values")) ∧
    (targetHasValue df ref = true →
      computeDeltaCt df ref = .ok (df.map (fun r =>
        { sample := r.sample, target := r.target, value := r.value,
          derived := if sampleHasValue df r.sample = true then
              (if r.target = ref then some 0
               else osub (pivotCell df r.sample r.target) (pivotCell df r.sample ref))
            else none,
          tag := ref }))) := by
  refine ⟨?_, ?_, ?_⟩
  · intro h
    unfold computeDeltaCt
    simp [h]
  · intro h1 h2
    have h3 : ref ∉ pivotTargets df := fun hin =>
      by simp [(mem_pivotTargets_iff df ref).mp hin] at h2
    unfold computeDeltaCt
    simp [h1, h3]
  · intro h
    have h1 : df.any (fun r => r.target = ref) = true := by
      unfold targetHasValue at h
      rw [List.any_eq_true] at h ⊢
      obtain ⟨r, hr, hv⟩ := h
      rw [Bool.and_eq_true] at hv
      exact ⟨r, hr, hv.1⟩
    have h2 : ref ∈ pivotTargets df := (mem_pivotTargets_iff df ref).mpr h
    unfold computeDeltaCt
    simp only [h1, Bool.not_eq_true, h2]
    rw [if_neg (by simp), if_neg (by simp [h2])]
    congr 1
    apply List.map_congr_left
    intro r _
    rw [lookupDeltaCt_eq df ref r.sample r.target h]

/-- Witness for C1 at the spec scenario (GAPDH mean CT 18, MYC mean CT 22 in
SampleA): ΔCt(MYC, SampleA) = 4 and ΔCt(GAPDH, SampleA) = 0. -/
theorem computeDeltaCt_characterization_witness :
    computeDeltaCt dfDeltaScenario "GAPDH"
      = .ok [⟨"SampleA", "GAPDH", some 18, some 0, "GAPDH"⟩,
             ⟨"SampleA", "MYC", some 22, some 4, "GAPDH"⟩] := by
  have h := (computeDeltaCt_characterization dfDeltaScenario "GAPDH").2.2 (by decide)
  rw [h]
  decide

/-- Counterexample to C1 as stated: a table containing the reference gene on
which compute_delta_ct raises instead of returning (every reference CT is
missing), and a table containing the reference gene on which the
reference-gene row of SampleB carries a missing delta_ct, not 0 (SampleB has
no present CT value, so the pivot drops it and the left merge misses). -/
theorem computeDeltaCt_claim_counterexample :
    computeDeltaCt dfDeltaRefAllMissing "GAPDH"
        = .error "Reference gene GAPDH has no CT values" ∧
    computeDeltaCt dfDeltaDroppedSample "GAPDH"
        = .ok [⟨"SampleA", "GAPDH", some 18, some 0, "GAPDH"⟩,
               ⟨"SampleB", "GAPDH", none, none, "GAPDH"⟩] := by
  exact ⟨by decide, by decide⟩

/-- C2 (amended): when the control condition is absent from the sample
column, compute_delta_delta_ct raises a validation error naming it; for
every input table in which the control condition has at least one present
ΔCt value it returns one output row per input row, where a row whose target
has at least one present ΔCt value receives delta_delta_ct = ΔCt of that
(sample, target) minus ΔCt of (control, target) (missing if either side is
missing) and exactly 0 when its sample is the control condition, while a row
of a target with no present ΔCt value is dropped from the pivot index and
receives a missing delta_delta_ct; a table containing the control condition
only with missing ΔCt values escapes with a key lookup error instead of
returning. -/
theorem computeDeltaDeltaCt_characterization (df : List STRow) (ctrl : String) :
    (df.any (fun r => r.sample = ctrl) = false →
      computeDeltaDeltaCt df ctrl = .error ("Control condition " ++ ctrl ++ " not found")) ∧
    (df.any (fun r => r.sample = ctrl) = true → sampleHasValue df ctrl = false →
      computeDeltaDeltaCt df ctrl = .error ("KeyError: " ++ ctrl)) ∧
    (sampleHasValue df ctrl = true →
      computeDeltaDeltaCt df ctrl = .ok (df.map (fun r =>
        { sample := r.sample, target := r.target, value := r.value,
          derived := if targetHasValue df r.target = true then
              (if r.sample = ctrl then some 0
               else osub (pivotCell df r.sample r.target) (pivotCell df ctrl r.target))
            else none,
          tag := ctrl }))) := by
  refine ⟨?_, ?_, ?_⟩
  · intro h
    unfold computeDeltaDeltaCt
    simp [h]
  · intro h1 h2
    have h3 : ctrl ∉ pivotSamples df := fun hin =>
      by simp [(mem_pivotSamples_iff df ctrl).mp hin] at h2
    unfold computeDeltaDeltaCt
    simp [h1, h3]
  · intro h
    have h1 : df.any (fun r => r.sample = ctrl) = true := by
      unfold sampleHasValue at h
      rw [List.any_eq_true] at h ⊢
      obtain ⟨r, hr, hv⟩ := h
      rw [Bool.and_eq_true] at hv
      exact ⟨r, hr, hv.1⟩
    have h2 : ctrl ∈ pivotSamples df := (mem_pivotSamples_iff df ctrl).mpr h
    unfold computeDeltaDeltaCt
    rw [if_neg (by simp [h1]), if_neg (by simp [h2])]
    congr 1
    apply List.map_congr_left
    intro r _
    rw [lookupDeltaDeltaCt_eq df ctrl r.sample r.target h]

/-- Witness for C2 at the spec scenario (ΔCt(MYC, Control) = 4,
ΔCt(MYC, Treated) = 2): ΔΔCt(MYC, Treated) = -2 and ΔΔCt(MYC, Control) = 0. -/
theorem computeDeltaDeltaCt_characterization_witness :
    computeDeltaDeltaCt dfDdctScenario "Control"
      = .ok [⟨"Control", "MYC", some 4, some 0, "Control"⟩,
             ⟨"Treated", "MYC", some 2, some (-2), "Control"⟩] := by
  have h := (computeDeltaDeltaCt_characterization dfDdctScenario "Control").2.2 (by decide)
  rw [h]
  decide

/-- Counterexample to C2 as stated: a ΔCt table containing the control
condition on which compute_delta_delta_ct escapes with a KeyError instead of
returning (every control ΔCt is missing), and a table containing the control
condition on which the control-condition row of target MYC carries a missing
delta_delta_ct, not 0 (MYC has no present ΔCt value, so the pivot drops it
and the left merge misses). -/
theorem computeDeltaDeltaCt_claim_counterexample :
    computeDeltaDeltaCt dfDdctControlAllMissing "Control"
        = .error "KeyError: Control" ∧
    computeDeltaDeltaCt dfDdctDroppedTarget "Control"
        = .ok [⟨"Control", "MYC", none, none, "Control"⟩,
               ⟨"Control", "ACTB", some 1, some 0, "Control"⟩] := by
  exact ⟨by decide, by decide⟩

/-- Splitting a list by a predicate and its negation preserves the
multiplicity of every element. -/
theorem count_filter_partition {α : Type} [DecidableEq α] (l : List α)
    (p : α → Bool) (a : α) :
    (l.filter p).count a + (l.filter (fun x => ! p x)).count a = l.count a := by
  induction l with
  | nil => simp
  | cons b bs ih =>
    rw [List.filter_cons, List.filter_cons]
    by_cases hb : p b = true
    · rw [if_pos hb, if_neg (by simp [hb])]
      by_cases hba : b = a <;> simp [hba, List.count_cons] <;> omega
    · rw [if_neg hb, if_pos (by simp [hb])]
      by_cases hba : b = a <;> simp [hba, List.count_cons] <;> omega

/-- C4 (amended): the two partitions returned by filter_replicates are
disjoint and their union, counted by well identity, equals the input: every
input row lands in exactly one partition, and a row lands in the filtered
partition iff its replicate group passes the criterion the source actually
evaluates, namely: the group has at least 2 present CT values and its sd is
at most sd_cutoff, and the stored valid proportion (valid_count divided by
the pandas count, which also skips missing values, hence 1 whenever any
present value exists and missing otherwise) is at least min_proportion. -/
theorem filterReplicates_partition (df : List WellRow) (c m : ℚ) :
    (∀ r : WellRow,
      ((filterReplicates df c m).1.count r) + ((filterReplicates df c m).2.count r)
        = df.count r) ∧
    (∀ r : WellRow, r ∈ (filterReplicates df c m).1 → r ∉ (filterReplicates df c m).2) ∧
    (∀ r ∈ df,
      (r ∈ (filterReplicates df c m).1 ↔ groupPasses df c m r.sample r.target = true)) := by
  refine ⟨?_, ?_, ?_⟩
  · intro r
    exact count_filter_partition df _ r
  · intro r h1 h2
    simp only [filterReplicates, List.mem_filter] at h1 h2
    rw [h1.2] at h2
    simp at h2
  · intro r hr
    constructor
    · intro h1
      exact (List.mem_filter.mp h1).2
    · intro hp
      exact List.mem_filter.mpr ⟨hr, hp⟩

/-- Witness for C4 at the spec QC scenario (CT values [20.0, 20.2, 20.1],
sd_cutoff 0.5, min_proportion 0.5): the group passes and a well of the group
is in the filtered and not in the flagged partition. -/
theorem filterReplicates_partition_witness :
    (⟨"SampleA", "GeneX", some 20⟩ : WellRow) ∈ (filterReplicates dfQcScenario (1/2) (1/2)).1 ∧
    (⟨"SampleA", "GeneX", some 20⟩ : WellRow) ∉ (filterReplicates dfQcScenario (1/2) (1/2)).2 := by
  have h := filterReplicates_partition dfQcScenario (1/2) (1/2)
  have hmem : (⟨"SampleA", "GeneX", some 20⟩ : WellRow) ∈
      (filterReplicates dfQcScenario (1/2) (1/2)).1 :=
    (h.2.2 ⟨"SampleA", "GeneX", some 20⟩ (by decide)).mpr (by decide)
  exact ⟨hmem, h.2.1 _ hmem⟩

/-- Counterexample to C4 as stated: a group of 4 wells with 2 present CT
values (equal, so sd = 0 ≤ 0.5) and min_proportion = 0.9.  The spec-level
valid proportion 2/4 = 1/2 violates the proportion condition, yet every row
of the group lands in the filtered partition, because the source divides by
the count of present values and obtains 2/2 = 1. -/
theorem filterReplicates_claim_counterexample :
    (filterReplicates dfQcHalfMissing (1/2) (9/10)).1 = dfQcHalfMissing ∧
    (filterReplicates dfQcHalfMissing (1/2) (9/10)).2 = [] ∧
    sdConditionHolds (groupValid dfQcHalfMissing "SampleA" "GeneX") (1/2) = true ∧
    ¬ (9/10 : ℚ) ≤ specValidProportion dfQcHalfMissing "SampleA" "GeneX" := by
  refine ⟨by decide, by decide, by decide, by decide⟩

/-- C5 (amended): a replicate group with fewer than 2 present CT values (sd
undefined) is always placed in the flagged partition, regardless of its
valid proportion and of min_proportion: the missing sd fails the sd
comparison, so the proportion condition never decides the outcome.  No error
is raised. -/
theorem filterReplicates_undefined_sd_flagged (df : List WellRow) (c m : ℚ)
    (r : WellRow) (hr : r ∈ df)
    (hlen : (groupValid df r.sample r.target).length < 2) :
    r ∈ (filterReplicates df c m).2 ∧ r ∉ (filterReplicates df c m).1 := by
  have hfail : groupPasses df c m r.sample r.target = false := by
    unfold groupPasses sdConditionHolds
    rw [decide_eq_false (by omega)]
    simp
  constructor
  · simp [filterReplicates, List.mem_filter, hr, hfail]
  · intro hmem
    simp [filterReplicates, List.mem_filter, hfail] at hmem

/-- Witness for C5: the single-well group is flagged. -/
theorem filterReplicates_undefined_sd_flagged_witness :
    (⟨"SampleA", "GeneX", some 20⟩ : WellRow) ∈ (filterReplicates dfQcSingle (1/2) (1/2)).2 ∧
    (⟨"SampleA", "GeneX", some 20⟩ : WellRow) ∉ (filterReplicates dfQcSingle (1/2) (1/2)).1 :=
  filterReplicates_undefined_sd_flagged dfQcSingle (1/2) (1/2)
    ⟨"SampleA", "GeneX", some 20⟩ (by decide) (by decide)

/-- Counterexample to C5 as stated: a group with a single present CT value
and min_proportion = 0.5.  Its valid proportion is 1 ≥ 0.5 under either
reading, so the claim places it in the filtered partition, but the code
flags it (the missing sd comparison is false). -/
theorem filterReplicates_small_group_counterexample :
    (groupValid dfQcSingle "SampleA" "GeneX").length < 2 ∧
    (1/2 : ℚ) ≤ specValidProportion dfQcSingle "SampleA" "GeneX" ∧
    (filterReplicates dfQcSingle (1/2) (1/2)).1 = [] ∧
    (filterReplicates dfQcSingle (1/2) (1/2)).2 = dfQcSingle := by
  refine ⟨by decide, by decide, by decide, by decide⟩

/-- The all-normal flag computed by _auto_select_test agrees with the
spec-level reading: every group has at least 3 observations and passes the
normality oracle (an empty group list counts as not all-normal). -/
theorem autoSelect_allNormal_iff (gd : List (List ℚ)) (oracle : List ℚ → Bool)
    (hne : gd ≠ []) :
    ((if (gd.map (fun d => if 3 ≤ d.length then oracle d else false)).isEmpty then false
      else (gd.map (fun d => if 3 ≤ d.length then oracle d else false)).all (fun b => b))
        = true)
      ↔ (∀ d ∈ gd, 3 ≤ d.length ∧ oracle d = true) := by
  rw [if_neg (by simpa using hne)]
  rw [List.all_eq_true]
  constructor
  · intro h d hd
    have := h _ (List.mem_map.mpr ⟨d, hd, rfl⟩)
    by_cases hl : 3 ≤ d.length
    · exact ⟨hl, by simpa [hl] using this⟩
    · simp [hl] at this
  · rintro h b hb
    obtain ⟨d, hd, rfl⟩ := List.mem_map.mp hb
    obtain ⟨hl, ho⟩ := h d hd
    simp [hl, ho]

/-- C3: with test_type auto, the test is selected exactly by the decision
table over (number of groups, paired flag, all-groups-normal), where a group
with fewer than 3 observations counts as non-normal: 2 groups and all normal
give the t-test (whose paired/independent variant follows the paired flag,
as the test_name of _run_ttest shows), 2 groups otherwise give
Mann-Whitney U; more than 2 groups give Friedman when paired, one-way ANOVA
when unpaired and all normal, Kruskal-Wallis otherwise. -/
theorem autoSelectTest_decision_table (gd : List (List ℚ)) (paired : Bool)
    (oracle : List ℚ → Bool) :
    (gd.length = 2 →
      (((∀ d ∈ gd, 3 ≤ d.length ∧ oracle d = true) →
          autoSelectTest gd paired oracle = "ttest") ∧
       (¬ (∀ d ∈ gd, 3 ≤ d.length ∧ oracle d = true) →
          autoSelectTest gd paired oracle = "mwu"))) ∧
    (2 < gd.length →
      ((paired = true → autoSelectTest gd paired oracle = "friedman") ∧
       (paired = false → (∀ d ∈ gd, 3 ≤ d.length ∧ oracle d = true) →
          autoSelectTest gd paired oracle = "anova") ∧
       (paired = false → ¬ (∀ d ∈ gd, 3 ≤ d.length ∧ oracle d = true) →
          autoSelectTest gd paired oracle = "kruskal"))) ∧
    (∀ ev : Bool, ttestName true ev = "Paired t-test"
       ∧ ttestName false ev ≠ "Paired t-test") := by
  refine ⟨?_, ?_, ?_⟩
  · intro h2
    have hne : gd ≠ [] := by intro h; rw [h] at h2; simp at h2
    constructor
    · intro hall
      have hb := (autoSelect_allNormal_iff gd oracle hne).mpr hall
      unfold autoSelectTest
      simp [hb, h2]
      exact ⟨hne, hall⟩
    · intro hnall
      have hb : (if (gd.map (fun d => if 3 ≤ d.length then oracle d else false)).isEmpty
          then false
          else (gd.map (fun d => if 3 ≤ d.length then oracle d else false)).all (fun b => b))
            = false := by
        by_contra hc
        rw [Bool.not_eq_false] at hc
        exact hnall ((autoSelect_allNormal_iff gd oracle hne).mp hc)
      unfold autoSelectTest
      simp only [hb, h2]
      simp
  · intro h2
    have hne : gd ≠ [] := by intro h; rw [h] at h2; simp at h2
    have hlen : gd.length ≠ 2 := by omega
    refine ⟨?_, ?_, ?_⟩
    · intro hp
      unfold autoSelectTest
      simp [hlen, hp]
    · intro hp hall
      have hb := (autoSelect_allNormal_iff gd oracle hne).mpr hall
      unfold autoSelectTest
      simp only [hlen, hp, hb]
      simp
    · intro hp hnall
      have hb : (if (gd.map (fun d => if 3 ≤ d.length then oracle d else false)).isEmpty
          then false
          else (gd.map (fun d => if 3 ≤ d.length then oracle d else false)).all (fun b => b))
            = false := by
        by_contra hc
        rw [Bool.not_eq_false] at hc
        exact hnall ((autoSelect_allNormal_iff gd oracle hne).mp hc)
      unfold autoSelectTest
      simp only [hlen, hp, hb]
      simp
  · intro ev
    cases ev <;> simp [ttestName]

/-- Witness for C3 at the spec scenario: the two groups [1..5] and [10..14]
with a normality oracle accepting both select the t-test; flipping the
conditions exercises the other rows of the table. -/
theorem autoSelectTest_decision_table_witness :
    autoSelectTest [[1, 2, 3, 4, 5], [10, 11, 12, 13, 14]] false (fun _ => true)
        = "ttest" ∧
    autoSelectTest [[1, 2], [10, 11]] false (fun _ => true) = "mwu" ∧
    autoSelectTest [[1, 2, 3], [4, 5, 6], [7, 8, 9]] true (fun _ => true)
        = "friedman" ∧
    autoSelectTest [[1, 2, 3], [4, 5, 6], [7, 8, 9]] false (fun _ => true)
        = "anova" ∧
    autoSelectTest [[1, 2], [4, 5], [7, 8]] false (fun _ => true) = "kruskal" := by
  refine ⟨?_, ?_, ?_, ?_, ?_⟩
  · exact ((autoSelectTest_decision_table _ false _).1 (by decide)).1
      (by intro d hd; fin_cases hd <;> exact ⟨by decide, rfl⟩)
  · exact ((autoSelectTest_decision_table _ false _).1 (by decide)).2
      (by intro h; exact absurd (h [1, 2] (by decide)).1 (by decide))
  · exact (((autoSelectTest_decision_table _ true _).2.1 (by decide)).1) rfl
  · exact (((autoSelectTest_decision_table _ false _).2.1 (by decide)).2.1) rfl
      (by intro d hd; fin_cases hd <;> exact ⟨by decide, rfl⟩)
  · exact (((autoSelectTest_decision_table _ false _).2.1 (by decide)).2.2) rfl
      (by intro h; exact absurd (h [1, 2] (by decide)).1 (by decide))

/-- C6 (code bug): the friedman branch of run_stat_tests raises on a complete
two-subject, three-condition design — and indeed _run_friedman raises for
every input and every value of the scipy statistic, because the pivot it
builds has no index argument and therefore always exactly one row, which can
never reach the required 2 blocks. -/
theorem runStatTestsFriedman_raises_on_complete_design :
    runStatTestsFriedman (fun _ => 0) dfFriedmanComplete true
        = .error "Friedman test requires at least 2 blocks (subjects)" ∧
    (∀ (stat : List GVRow → ℚ) (clean : List GVRow),
      runFriedman stat clean
        = .error "Friedman test requires at least 2 blocks (subjects)") := by
  refine ⟨by decide, fun stat clean => rfl⟩

/-- C7 (code bug): called with a list of grouping columns, run_stat_tests
assigns the underscore-joined interaction key to the caller dataframe as a
new _group column, so the caller dataset is not left unchanged; with a
single column name no column is touched. -/
theorem runStatTests_mutates_caller_frame :
    runStatTestsCallerFrame frameTwoGroupCols (Sum.inr ["condition", "batch"])
        = ⟨[("condition", ["ctl", "trt"]), ("batch", ["b1", "b2"]),
            ("value", ["1.5", "2.5"]), ("_group", ["ctl_b1", "trt_b2"])]⟩ ∧
    runStatTestsCallerFrame frameTwoGroupCols (Sum.inr ["condition", "batch"])
        ≠ frameTwoGroupCols ∧
    (∀ (df : Frame) (s : String), runStatTestsCallerFrame df (Sum.inl s) = df) := by
  refine ⟨by decide, by decide, fun df s => rfl⟩

/-- Scattering the image of the compacted list back into the present
positions is the same as mapping over the present entries in place. -/
theorem scatterAdjusted_map (ps : List (Option ℚ)) (f : ℚ → ℚ) :
    scatterAdjusted ps ((ps.filterMap id).map f) = ps.map (Option.map f) := by
  induction ps with
  | nil => rfl
  | cons p rest ih =>
    cases p with
    | none => simpa [scatterAdjusted, List.filterMap_cons] using ih
    | some q => simpa [scatterAdjusted, List.filterMap_cons] using ih

/-- adjust_pvalues with method bonferroni maps every present p-value to
min(p * m, 1) in place, with m the number of present p-values. -/
theorem adjustPvalues_bonferroni_eq (ps : List (Option ℚ)) :
    adjustPvalues .bonferroni ps
      = ps.map (Option.map (fun p => min (p * (((ps.filterMap id).length : ℚ))) 1)) := by
  unfold adjustPvalues
  by_cases h1 : ps.isEmpty = true
  · rw [if_pos h1]
    rw [List.isEmpty_iff] at h1
    rw [h1]
    rfl
  · rw [if_neg h1]
    by_cases h2 : ps.all (fun p => p.isNone) = true
    · rw [if_pos h2]
      refine ((List.map_congr_left ?_).trans (List.map_id ps)).symm
      intro a ha
      have := (List.all_eq_true.mp h2) a ha
      cases a with
      | none => rfl
      | some q => simp at this
    · rw [if_neg h2]
      exact scatterAdjusted_map ps _

/-- C8: with method bonferroni and raw p-values in [0, 1], every present
p-value is multiplied by the number of present p-values and capped at 1.0,
and the adjusted value is never smaller than the raw value. -/
theorem adjustPvalues_bonferroni_monotone (ps : List (Option ℚ))
    (hb : ∀ p ∈ ps.filterMap id, 0 ≤ p ∧ p ≤ 1) :
    ∀ (i : ℕ) (p : ℚ), ps[i]? = some (some p) →
      (adjustPvalues .bonferroni ps)[i]?
          = some (some (min (p * (((ps.filterMap id).length : ℚ))) 1)) ∧
      p ≤ min (p * (((ps.filterMap id).length : ℚ))) 1 := by
  intro i p hi
  have hp : p ∈ ps.filterMap id :=
    List.mem_filterMap.mpr ⟨some p, List.getElem?_mem hi, rfl⟩
  obtain ⟨h0, h1le⟩ := hb p hp
  have hm : (1 : ℚ) ≤ ((ps.filterMap id).length : ℚ) := by
    have hpos : 0 < (ps.filterMap id).length :=
      List.length_pos.mpr (fun he => by simp [he] at hp)
    exact_mod_cast hpos
  constructor
  · rw [adjustPvalues_bonferroni_eq, List.getElem?_map, hi]
    rfl
  · exact le_min (le_mul_of_one_le_right h0 hm) h1le

/-- Witness for C8 at the spec scenario adjust_pvalues([0.01, 0.04, 0.03,
0.20], bonferroni): the first entry becomes 0.04 ≥ 0.01. -/
theorem adjustPvalues_bonferroni_monotone_witness :
    (adjustPvalues .bonferroni
        [some (1/100), some (1/25), some (3/100), some (1/5)])[0]?
      = some (some (1/25)) ∧ (1/100 : ℚ) ≤ 1/25 := by
  have h := adjustPvalues_bonferroni_monotone
    [some (1/100), some (1/25), some (3/100), some (1/5)]
    (by decide) 0 (1/100) (by decide)
  exact ⟨by rw [h.1]; decide, by decide⟩

/-- Scattering keeps the shape of the original array. -/
theorem scatterAdjusted_length (ps : List (Option ℚ)) (cs : List ℚ) :
    (scatterAdjusted ps cs).length = ps.length := by
  induction ps generalizing cs with
  | nil => rfl
  | cons p rest ih =>
    cases p with
    | none => simp [scatterAdjusted, ih]
    | some q =>
      cases cs with
      | nil => simp [scatterAdjusted, ih]
      | cons c cs2 => simp [scatterAdjusted, ih]

/-- Scattering never moves a value between a present and a missing position. -/
theorem scatterAdjusted_none_iff (ps : List (Option ℚ)) (cs : List ℚ) (i : ℕ) :
    (scatterAdjusted ps cs)[i]? = some none ↔ ps[i]? = some none := by
  induction ps generalizing cs i with
  | nil => simp [scatterAdjusted]
  | cons p rest ih =>
    cases p with
    | none =>
      cases i with
      | zero => simp [scatterAdjusted]
      | succ j => simp [scatterAdjusted, ih]
    | some q =>
      cases cs with
      | nil =>
        cases i with
        | zero => simp [scatterAdjusted]
        | succ j => simp [scatterAdjusted, ih]
      | cons c cs2 =>
        cases i with
        | zero => simp [scatterAdjusted]
        | succ j => simp [scatterAdjusted, ih]

/-- The present entries of the scattered array are exactly the corrected
compacted array. -/
theorem scatterAdjusted_filterMap (ps : List (Option ℚ)) (cs : List ℚ)
    (h : cs.length = (ps.filterMap id).length) :
    (scatterAdjusted ps cs).filterMap id = cs := by
  induction ps generalizing cs with
  | nil =>
    cases cs with
    | nil => rfl
    | cons c cs2 => simp at h
  | cons p rest ih =>
    cases p with
    | none =>
      simp only [scatterAdjusted, List.filterMap_cons]
      exact ih cs (by simpa [List.filterMap_cons] using h)
    | some q =>
      cases cs with
      | nil => simp [List.filterMap_cons] at h
      | cons c cs2 =>
        simp only [scatterAdjusted, List.filterMap_cons, id]
        rw [ih cs2 (by simpa [List.filterMap_cons] using h)]

/-- Every correction method preserves the length of the compacted array. -/
theorem correctionOn_length (m : PAdjustMethod) (ps : List ℚ) :
    (correctionOn m ps).length = ps.length := by
  cases m with
  | fdr_bh => simp [correctionOn, bhCorrect, unsortByIdx]
  | holm => simp [correctionOn, holmCorrect, unsortByIdx]
  | bonferroni => simp [correctionOn, bonferroniCorrect]

/-- C9: for every correction method, adjust_pvalues keeps the array shape,
keeps missing entries missing and present entries present positionwise, and
corrects the present entries purely as a function of the compacted present
array (missing entries never participate); an all-missing input is returned
as the identity. -/
theorem adjustPvalues_nan_passthrough (m : PAdjustMethod) (ps : List (Option ℚ)) :
    (adjustPvalues m ps).length = ps.length ∧
    (∀ i : ℕ, (adjustPvalues m ps)[i]? = some none ↔ ps[i]? = some none) ∧
    (adjustPvalues m ps).filterMap id = correctionOn m (ps.filterMap id) ∧
    (ps.all (fun p => p.isNone) = true → adjustPvalues m ps = ps) := by
  by_cases h1 : ps.isEmpty = true
  · have hps : ps = [] := List.isEmpty_iff.mp h1
    subst hps
    refine ⟨rfl, by intro i; simp [adjustPvalues], ?_, fun _ => rfl⟩
    cases m <;> rfl
  · by_cases h2 : ps.all (fun p => p.isNone) = true
    · have hadj : adjustPvalues m ps = ps := by
        unfold adjustPvalues
        rw [if_neg h1, if_pos h2]
      have hfm : ps.filterMap id = [] := by
        rw [List.filterMap_eq_nil_iff]
        intro a ha
        have := (List.all_eq_true.mp h2) a ha
        cases a with
        | none => rfl
        | some q => simp at this
      refine ⟨by rw [hadj], by intro i; rw [hadj], ?_, fun _ => hadj⟩
      rw [hadj, hfm]
      cases m <;> rfl
    · have hadj : adjustPvalues m ps
          = scatterAdjusted ps (correctionOn m (ps.filterMap id)) := by
        unfold adjustPvalues
        rw [if_neg h1, if_neg h2]
      refine ⟨?_, ?_, ?_, fun hc => absurd hc h2⟩
      · rw [hadj, scatterAdjusted_length]
      · intro i
        rw [hadj]
        exact scatterAdjusted_none_iff ps _ i
      · rw [hadj]
        exact scatterAdjusted_filterMap ps _ (correctionOn_length m _)

/-- Witness for C9 with method holm on [0.01, NaN, 0.03, 0.2] and method
fdr_bh on an all-NaN pair. -/
theorem adjustPvalues_nan_passthrough_witness :
    (adjustPvalues .holm [some (1/100), none, some (3/100), some (1/5)]).length = 4 ∧
    (adjustPvalues .holm [some (1/100), none, some (3/100), some (1/5)])[1]? = some none ∧
    adjustPvalues .fdr_bh [none, none] = [none, none] := by
  have h := adjustPvalues_nan_passthrough .holm
    [some (1/100), none, some (3/100), some (1/5)]
  have h2 := adjustPvalues_nan_passthrough .fdr_bh [none, none]
  exact ⟨by rw [h.1]; rfl, (h.2.1 1).mpr rfl, h2.2.2.2 rfl⟩

/-- C10: with at least 2 groups and parametric = False, run_pairwise_tests
performs the Dunn test regardless of the requested test_type (the Dunn
branch of the dispatch catches every non-parametric call), while with
parametric = True each requested family is honored. -/
theorem runPairwiseTests_nonparametric_dunn (df : List GVRow)
    (h : 2 ≤ ((cleanRows df).map (fun r => r.g)).dedup.length) :
    (∀ testType : String, runPairwiseTests df testType false = .ok .dunn) ∧
    runPairwiseTests df "tukey" true = .ok .tukey ∧
    runPairwiseTests df "dunn" true = .ok .dunn ∧
    runPairwiseTests df "pairwise_t" true = .ok .pairwise_t ∧
    runPairwiseTests df "pairwise_mwu" true = .ok .pairwise_mwu := by
  have hlt : ¬ ((cleanRows df).map (fun r => r.g)).dedup.length < 2 := by omega
  refine ⟨?_, ?_, ?_, ?_, ?_⟩
  · intro tt
    unfold runPairwiseTests
    rw [if_neg hlt, if_neg (by simp), if_pos (by simp)]
  · unfold runPairwiseTests
    rw [if_neg hlt, if_pos (by decide)]
  · unfold runPairwiseTests
    rw [if_neg hlt, if_neg (by decide), if_pos (by decide)]
  · unfold runPairwiseTests
    rw [if_neg hlt, if_neg (by decide), if_neg (by decide), if_pos (by decide)]
  · unfold runPairwiseTests
    rw [if_neg hlt, if_neg (by decide), if_neg (by decide), if_neg (by decide),
      if_pos (by decide)]

/-- Witness for C10: two groups, requested test_type tukey, parametric
False: the Dunn test runs. -/
theorem runPairwiseTests_nonparametric_dunn_witness :
    runPairwiseTests [⟨"a", some 1⟩, ⟨"b", some 2⟩] "tukey" false = .ok .dunn :=
  (runPairwiseTests_nonparametric_dunn [⟨"a", some 1⟩, ⟨"b", some 2⟩]
    (by decide)).1 "tukey"
